import Mathlib

/-!
Verification of the diff-parsing and rule-evaluation engine of the
metamask-mobile-framework-migration-validator repository.

The TypeScript sources are shallowly embedded over `List Char` strings:

* `getOriginalLineNumber`, `parseHunkHeader` / `hunkAnchoredLine` — the
  hunk/line indexing logic shared verbatim by the non-streaming engine
  (`src/utils/prValidator.ts`) and the streaming engine
  (`src/app/api/validate/stream/route.ts`).
* `importRuleIssues`, `getterIssues` — the per-line rule set, textually
  identical in both engines.
* `Stream.validateFileContent` / `Stream.validateTestFile` — the streaming
  engine, including its `e2e/` filename filter, the fixture-utility
  multi-line import scanner and the extended test-block scanner.
* `PrV.validateFileContent` / `PrV.validateTestFile` — the non-streaming
  engine, plus `parseGitHubPrUrl`, `buildReport` and `validatePr` with the
  GitHub fetch modelled as a pure oracle.

JavaScript regular expressions are embedded as bespoke maximal-munch
matchers.  For every pattern appearing in the source the character class of
a greedy repetition is disjoint from the character that must follow it, so
maximal munch coincides with the backtracking semantics of JS regexes; each
matcher's doc comment records the regex it encodes.
-/

/-- Strings of the embedded program are lists of characters. -/
abbrev Str := List Char

/-- Converts a Lean string literal to the embedded representation. -/
def str (s : String) : Str := s.data

/-- Character class of the JS regex class `\w`, i.e. `[A-Za-z0-9_]`. -/
def isWordChar (c : Char) : Bool := c.isAlphanum || c = '_'

/-- Character class of the JS regex class `\s` (whitespace). -/
def isSpaceChar (c : Char) : Bool :=
  c = ' ' || c = '\t' || c = '\n' || c = '\r' || c = '\x0b' || c = '\x0c'

/-- Embeds `String.prototype.trim()`: strip whitespace from both ends. -/
def trimStr (cs : Str) : Str :=
  ((cs.dropWhile isSpaceChar).reverse.dropWhile isSpaceChar).reverse

/-- Embeds `String.prototype.split('\n')`. -/
def splitOnNewline : Str → List Str
  | [] => [[]]
  | c :: rest =>
    match splitOnNewline rest, decide (c = '\n') with
    | r, true => [] :: r
    | [], false => [[c]]
    | h :: t, false => (c :: h) :: t

/-- Embeds `s.startsWith(pat)`. -/
def startsWithStr (s pat : Str) : Bool := pat.isPrefixOf s

/-- Embeds `s.endsWith(pat)`. -/
def endsWithStr (s pat : Str) : Bool := pat.isSuffixOf s

/-- Embeds `s.includes(pat)`: `pat` occurs as a contiguous substring. -/
def strContains (s pat : Str) : Bool :=
  if pat.isPrefixOf s then true
  else
    match s with
    | [] => false
    | _ :: rest => strContains rest pat

/-- Consumes a literal from the front of the input, returning the rest. -/
def consumeLit : Str → Str → Option Str
  | [], s => some s
  | _ :: _, [] => none
  | p :: ps, c :: cs => if c = p then consumeLit (p :: ps).tail cs else none

/-- Embeds `parseInt(digits, 10)` on a digit string. -/
def natOfDigits (ds : Str) : Nat :=
  ds.foldl (fun a c => 10 * a + (c.toNat - 48)) 0

/-- Word-boundary test for `\b` in front of a word-initial pattern: the
previous character, when there is one, must not be a word character. -/
def boundaryOkBefore : Option Char → Bool
  | none => true
  | some p => !isWordChar p

/-- Leftmost search for a boolean matcher guarded by a leading `\b`. -/
def searchBoolAux (m : Str → Bool) : Option Char → Str → Bool
  | _, [] => false
  | prev, c :: rest =>
    (boundaryOkBefore prev && m (c :: rest)) || searchBoolAux m (some c) rest

/-- Leftmost search for an option-valued matcher with no boundary. -/
def searchOptAux {α : Type} (m : Str → Option α) : Str → Option α
  | [] => none
  | c :: rest =>
    match m (c :: rest) with
    | some a => some a
    | none => searchOptAux m rest

/-- Leftmost search for an option-valued matcher guarded by a leading `\b`. -/
def searchOptBAux {α : Type} (m : Str → Option α) : Option Char → Str → Option α
  | _, [] => none
  | prev, c :: rest =>
    if boundaryOkBefore prev then
      match m (c :: rest) with
      | some a => some a
      | none => searchOptBAux m (some c) rest
    else searchOptBAux m (some c) rest

/-- Matcher, at a fixed position, for `get\s+\w+\s*\(` — the tail of the
getter-detection regex `/\bget\s+\w+\s*\(/` (its `\b` lives in the search
driver). -/
def matchGetterAt : Str → Bool
  | 'g' :: 'e' :: 't' :: rest =>
    let sp := rest.takeWhile isSpaceChar
    let r1 := rest.dropWhile isSpaceChar
    if sp.isEmpty then false
    else
      let wd := r1.takeWhile isWordChar
      let r2 := r1.dropWhile isWordChar
      if wd.isEmpty then false
      else
        match r2.dropWhile isSpaceChar with
        | '(' :: _ => true
        | _ => false
  | _ => false

/-- Embeds `/\bget\s+\w+\s*\(/.test(cleanLine)`. -/
def searchGetterMethod (cl : Str) : Bool := searchBoolAux matchGetterAt none cl

/-- Character class `[A-Za-z0-9_<>]` of the typed-getter capture group. -/
def isTypeChar (c : Char) : Bool := c.isAlphanum || c = '_' || c = '<' || c = '>'

/-- Matcher, at a fixed position, for the typed-getter regex
`/\bget\s+\w+\s*\(\s*\)\s*:\s*([A-Za-z0-9_<>]+)/`, returning the capture. -/
def matchTsGetterAt : Str → Option Str
  | 'g' :: 'e' :: 't' :: rest =>
    let sp := rest.takeWhile isSpaceChar
    let r1 := rest.dropWhile isSpaceChar
    if sp.isEmpty then none
    else
      let wd := r1.takeWhile isWordChar
      let r2 := r1.dropWhile isWordChar
      if wd.isEmpty then none
      else
        match r2.dropWhile isSpaceChar with
        | '(' :: r3 =>
          match r3.dropWhile isSpaceChar with
          | ')' :: r4 =>
            match r4.dropWhile isSpaceChar with
            | ':' :: r5 =>
              let r6 := r5.dropWhile isSpaceChar
              let cap := r6.takeWhile isTypeChar
              if cap.isEmpty then none else some cap
            | _ => none
          | _ => none
        | _ => none
  | _ => none

/-- Embeds `cleanLine.match(/\bget\s+\w+\s*\(\s*\)\s*:\s*([A-Za-z0-9_<>]+)/)`,
returning the first capture group of the leftmost match. -/
def searchTsGetter (cl : Str) : Option Str := searchOptBAux matchTsGetterAt none cl

/-- Tail matcher `(\w+|)\s*\(` of the test-declaration regex. -/
def itTailMatch (cs : Str) : Bool :=
  match (cs.dropWhile isWordChar).dropWhile isSpaceChar with
  | '(' :: _ => true
  | _ => false

/-- Matcher, at a fixed position, for `it(\.|)(\w+|)\s*\(` — the tail of the
test-declaration regex `/\bit(\.|)(\w+|)\s*\(/`; the ordered alternation
`(\.|)` first tries to consume a dot, then falls back to the empty branch. -/
def matchItAt : Str → Bool
  | 'i' :: 't' :: rest =>
    (match rest with
     | '.' :: r => itTailMatch r
     | _ => false) || itTailMatch rest
  | _ => false

/-- Embeds `/\bit(\.|)(\w+|)\s*\(/.test(line)`. -/
def searchIt (cl : Str) : Bool := searchBoolAux matchItAt none cl

/-- Matcher, at a fixed position, for `withFixtures\s*\(` — the tail of the
fixture-call regex `/\bwithFixtures\s*\(/`. -/
def matchWithFixturesAt : Str → Bool
  | 'w' :: 'i' :: 't' :: 'h' :: 'F' :: 'i' :: 'x' :: 't' :: 'u' :: 'r' :: 'e' :: 's' :: rest =>
    match rest.dropWhile isSpaceChar with
    | '(' :: _ => true
    | _ => false
  | _ => false

/-- Embeds `/\bwithFixtures\s*\(/.test(cleanNextLine)`. -/
def searchWithFixturesCall (cl : Str) : Bool := searchBoolAux matchWithFixturesAt none cl

/-- Matcher, at a fixed position, for the hunk-header regex
`/@@ -\d+,\d+ \+(\d+),\d+ @@/`, returning the parsed new-file start line. -/
def matchHunkAt : Str → Option Nat
  | '@' :: '@' :: ' ' :: '-' :: rest =>
    let d1 := rest.takeWhile Char.isDigit
    let r1 := rest.dropWhile Char.isDigit
    if d1.isEmpty then none
    else
      match r1 with
      | ',' :: r2 =>
        let d2 := r2.takeWhile Char.isDigit
        let r3 := r2.dropWhile Char.isDigit
        if d2.isEmpty then none
        else
          match r3 with
          | ' ' :: '+' :: r4 =>
            let d3 := r4.takeWhile Char.isDigit
            let r5 := r4.dropWhile Char.isDigit
            if d3.isEmpty then none
            else
              match r5 with
              | ',' :: r6 =>
                let d4 := r6.takeWhile Char.isDigit
                let r7 := r6.dropWhile Char.isDigit
                if d4.isEmpty then none
                else
                  match r7 with
                  | ' ' :: '@' :: '@' :: _ => some (natOfDigits d3)
                  | _ => none
              | _ => none
          | _ => none
      | _ => none
  | _ => none

/-- Embeds `hunkHeader.match(/@@ -\d+,\d+ \+(\d+),\d+ @@/)` followed by
`parseInt(match[1], 10)`. -/
def parseHunkHeader (l : Str) : Option Nat := searchOptAux matchHunkAt l

/-- Diff classification: a line added by the patch (`+` prefix, excluding
the `+++` file header). -/
def isAdded (l : Str) : Bool :=
  startsWithStr l (str "+") && !startsWithStr l (str "+++")

/-- A line that advances `originalLineIndex` in `getOriginalLineNumber`
(the source tests both `-` and the redundant `---`). -/
def keepLine (l : Str) : Bool :=
  !startsWithStr l (str "-") && !startsWithStr l (str "---")

/-- An Issue's `line` field: a recovered line number or the `'N/A'` sentinel. -/
inductive LineNo where
  | num (n : Int)
  | na
deriving DecidableEq, Repr

/-- Loop body of `getOriginalLineNumber`: walks the patch lines carrying the
running count of added lines seen (`addedCnt`) and of non-removed lines seen
(`origIdx`). -/
def getOriginalLineNumberAux : List Str → Nat → Nat → Nat → LineNo
  | [], _, _, _ => LineNo.na
  | l :: rest, idx, addedCnt, origIdx =>
    if isAdded l then
      if addedCnt = idx then LineNo.num origIdx
      else
        getOriginalLineNumberAux rest idx (addedCnt + 1)
          (if keepLine l then origIdx + 1 else origIdx)
    else
      getOriginalLineNumberAux rest idx addedCnt
        (if keepLine l then origIdx + 1 else origIdx)

/-- Embeds `getOriginalLineNumber(lines, addedLineIndex)` — identical in the
streaming route and in `prValidator.ts`. -/
def getOriginalLineNumber (lines : List Str) (addedLineIndex : Nat) : LineNo :=
  getOriginalLineNumberAux lines addedLineIndex 0 0

/-- Scans downward from index `i` for the first line starting with `@@`,
embedding the `while (hunkHeaderIndex >= 0)` loop of `validateTestFile`. -/
def findHunkHeaderIdx (lines : List Str) : Nat → Option Nat
  | 0 => if startsWithStr (lines.getD 0 []) (str "@@") then some 0 else none
  | j + 1 =>
    if startsWithStr (lines.getD (j + 1) []) (str "@@") then some (j + 1)
    else findHunkHeaderIdx lines j

/-- Embeds the line-number computation at the end of `validateTestFile`
(identical in both engines): parse the nearest preceding hunk header, count
the non-removed lines strictly between it and `lineIndex`, and return
`hunkStartLine + linesAfterHunk - 1`; `'N/A'` when the header is missing or
unparseable. -/
def hunkAnchoredLine (lines : List Str) (lineIndex : Nat) : LineNo :=
  match findHunkHeaderIdx lines lineIndex with
  | none => LineNo.na
  | some h =>
    match parseHunkHeader (lines.getD h []) with
    | none => LineNo.na
    | some hunkStartLine =>
      let linesAfterHunk :=
        ((lines.drop (h + 1)).take (lineIndex - (h + 1))).countP
          (fun l => !startsWithStr l (str "-"))
      LineNo.num ((hunkStartLine : Int) + (linesAfterHunk : Int) - 1)

example : getOriginalLineNumber [str "@@ -1,3 +10,4 @@", str " ctx", str "+new"] 0 =
    LineNo.num 2 := by decide

example : parseHunkHeader (str "@@ -1,3 +10,4 @@") = some 10 := by decide

example : hunkAnchoredLine [str "@@ -1,3 +10,4 @@", str " ctx", str "+new"] 2 =
    LineNo.num 10 := by decide

example : searchIt (str "it('does X', async () => \x7b await something(); \x7d);") = true := by
  decide

example : searchTsGetter (str "get button(): Promise<DetoxElement> \x7b") =
    some (str "Promise<DetoxElement>") := by decide

/-- The `checkType` enumeration of an Issue, covering both engines
(`fixtureUtilsFramework` exists only in the streaming engine). -/
inductive CheckType where
  | assertionsFramework
  | assertionsNoTs
  | gesturesFramework
  | fixturesFramework
  | matchersFramework
  | fixtureUtilsFramework
  | getterType
  | testWithfixtures
deriving DecidableEq, Repr

/-- One detected violation, as pushed by `issues.push({...})`. -/
structure Issue where
  file : Str
  line : LineNo
  importStatement : Str
  checkType : CheckType
deriving DecidableEq, Repr

/-- Builds the record pushed by `issues.push({...})`. -/
def mkIssue (f : Str) (ln : LineNo) (st : Str) (k : CheckType) : Issue :=
  { file := f, line := ln, importStatement := st, checkType := k }

/-- Embeds a guarded `if (cond) { issues.push(i) }`. -/
def condIssue (b : Bool) (i : Issue) : List Issue := if b then [i] else []

/-- The `VALID_GETTER_TYPES` allow-list (identical in all copies). -/
def VALID_GETTER_TYPES : List Str :=
  [str "DetoxElement", str "TappableElement", str "TypableElement", str "WebElement",
   str "IndexableNativeElement", str "NativeElement", str "SystemElement",
   str "DeviceLaunchAppConfig", str "DetoxMatcher"]

/-- The `FIXTURE_IMPORTS` restricted-symbol list of the streaming engine. -/
def FIXTURE_IMPORTS : List Str :=
  [str "FixtureBuilder", str "FixtureHelper", str "FixtureUtils"]

/-- Anchored matcher for `/^Promise<([A-Za-z0-9_]+)>$/`, returning the capture. -/
def promiseInner : Str → Option Str
  | 'P' :: 'r' :: 'o' :: 'm' :: 'i' :: 's' :: 'e' :: '<' :: rest =>
    let inner := rest.takeWhile isWordChar
    let r := rest.dropWhile isWordChar
    if inner.isEmpty then none
    else
      match r with
      | ['>'] => some inner
      | _ => none
  | _ => none

/-- Embeds `isValidGetterType(typeName)`: a direct member of the allow-list,
or `Promise<T>` with `T` in the allow-list. -/
def isValidGetterType (typeName : Str) : Bool :=
  if VALID_GETTER_TYPES.contains typeName then true
  else
    match promiseInner typeName with
    | some inner => VALID_GETTER_TYPES.contains inner
    | none => false

/-- Embeds the untyped-getter fallback: some allow-listed type name occurs
textually before a `get` access pattern on the cleaned line. -/
def hasValidTypePattern (cl : Str) (t : Str) : Bool :=
  strContains cl (t ++ str ".prototype.get") ||
  strContains cl (t ++ str "['prototype']['get") ||
  strContains cl (t ++ str ".get") ||
  strContains cl (t ++ str "['get") ||
  strContains cl (t ++ str "[\"get")

/-- Embeds `VALID_GETTER_TYPES.some(type => ...)` of the getter rule. -/
def hasValidType (cl : Str) : Bool := VALID_GETTER_TYPES.any (hasValidTypePattern cl)

/-- Embeds the five substring-based import rules of `validateFileContent`
(textually identical in the streaming and non-streaming engines), applied to
the cleaned added line `cl` in source order. -/
def importRuleIssues (fname : Str) (lines : List Str) (index : Nat) (cl : Str) : List Issue :=
  condIssue (strContains cl (str "import") && strContains cl (str "Assertions") &&
      !strContains cl (str "/framework"))
    (mkIssue fname (getOriginalLineNumber lines index) cl CheckType.assertionsFramework) ++
  condIssue (strContains cl (str "import") && strContains cl (str "Assertions") &&
      strContains cl (str ".ts"))
    (mkIssue fname (getOriginalLineNumber lines index) cl CheckType.assertionsNoTs) ++
  condIssue (strContains cl (str "import") && strContains cl (str "gestures") &&
      !strContains cl (str "/framework"))
    (mkIssue fname (getOriginalLineNumber lines index) cl CheckType.gesturesFramework) ++
  condIssue (strContains cl (str "import") && strContains cl (str "withFixtures") &&
      !strContains cl (str "/framework/fixtures"))
    (mkIssue fname (getOriginalLineNumber lines index) cl CheckType.fixturesFramework) ++
  condIssue (strContains cl (str "import") && strContains cl (str "Matchers") &&
      !strContains cl (str "/framework"))
    (mkIssue fname (getOriginalLineNumber lines index) cl CheckType.matchersFramework)

/-- Embeds the getter-type rule block of `validateFileContent` (identical in
both engines): on a line matching the getter pattern, a recognised TypeScript
return-type annotation that is allow-listed suppresses the issue; otherwise
the untyped access-pattern fallback must hold, else a `getter-type` issue is
pushed. -/
def getterIssues (fname : Str) (lines : List Str) (index : Nat) (cl : Str) : List Issue :=
  if searchGetterMethod cl then
    match searchTsGetter cl with
    | some returnType =>
      if isValidGetterType returnType then []
      else
        condIssue (!hasValidType cl)
          (mkIssue fname (getOriginalLineNumber lines index) cl CheckType.getterType)
    | none =>
      condIssue (!hasValidType cl)
        (mkIssue fname (getOriginalLineNumber lines index) cl CheckType.getterType)
  else []

/-- Net parenthesis/brace depth contributed by one line, embedding the plain
`for (const char of ...)` counting loops (no early exit). -/
def countDepth (openC closeC : Char) (cl : Str) : Int :=
  cl.foldl (fun d c => if c = openC then d + 1 else if c = closeC then d - 1 else d) 0

/-- Character walk of the multi-line-declaration scanner: `(` increments,
`)` decrements and exits the walk with a `declarationEndFound` flag as soon
as the depth reaches zero. -/
def lineParenStep : Str → Int → Int × Bool
  | [], pd => (pd, false)
  | c :: cs, pd =>
    if c = '(' then lineParenStep cs (pd + 1)
    else if c = ')' then
      if pd - 1 = 0 then (pd - 1, true) else lineParenStep cs (pd - 1)
    else lineParenStep cs pd

/-- Character walk of the block scanner: `{` increments, `}` decrements and
exits the walk with a `blockEndFound` flag as soon as the depth goes
negative. -/
def lineBraceStep : Str → Int → Int × Bool
  | [], bd => (bd, false)
  | c :: cs, bd =>
    if c = '\x7b' then lineBraceStep cs (bd + 1)
    else if c = '\x7d' then
      if bd - 1 < 0 then (bd - 1, true) else lineBraceStep cs (bd - 1)
    else lineBraceStep cs bd

namespace Stream

/-- Forward walk of the fixture-utility multi-line import scanner, applied
to `addedLines` from the current index on: succeed on the first scanned line
containing `/framework`, stop on the first line containing `}`. -/
def scanForwardFw : List Str → Bool
  | [] => false
  | l :: rest =>
    let nextLine := trimStr (l.drop 1)
    if strContains nextLine (str "/framework") then true
    else if strContains nextLine (str "\x7d") then false
    else scanForwardFw rest

/-- Backward walk of the fixture-utility scanner, applied to the reversal of
`addedLines` up to and including the current index: succeed on the first
scanned line containing both `import` and `/framework`, stop on the first
line containing `import` alone. -/
def scanBackwardImport : List Str → Bool
  | [] => false
  | l :: rest =>
    let prevLine := trimStr (l.drop 1)
    if strContains prevLine (str "import") && strContains prevLine (str "/framework") then true
    else if strContains prevLine (str "import") then false
    else scanBackwardImport rest

/-- Embeds the `for (const fixtureImport of FIXTURE_IMPORTS)` loop of the
streaming engine: for the first restricted symbol found on an added import
line lacking `/framework`, look ahead (when the line opens an unclosed
brace) or behind (when it closes a brace without an import keyword) for the
path fragment, push at most one `fixture-utils-framework` issue and break. -/
def fixtureUtilsAux (fname : Str) (lines addedLines : List Str) (index : Nat)
    (cl : Str) : List Str → List Issue
  | [] => []
  | sym :: rest =>
    if strContains cl (str "import") && strContains cl sym &&
        !strContains cl (str "/framework") then
      let isMulti1 := strContains cl (str "\x7b") && !strContains cl (str "\x7d")
      let hasFw1 := isMulti1 && scanForwardFw (addedLines.drop index)
      let isMulti2 := strContains cl (str "\x7d") && !strContains cl (str "import")
      let hasFw := hasFw1 || (isMulti2 && scanBackwardImport ((addedLines.take (index + 1)).reverse))
      let isMulti := isMulti1 || isMulti2
      if !isMulti || (isMulti && !hasFw) then
        [mkIssue fname (getOriginalLineNumber lines index) cl CheckType.fixtureUtilsFramework]
      else fixtureUtilsAux fname lines addedLines index cl rest
    else fixtureUtilsAux fname lines addedLines index cl rest

/-- The fixture-utility rule of the streaming engine for one added line. -/
def fixtureUtilsIssues (fname : Str) (lines addedLines : List Str) (index : Nat)
    (cl : Str) : List Issue :=
  fixtureUtilsAux fname lines addedLines index cl FIXTURE_IMPORTS

/-- All issues the streaming engine pushes for one added line, in source
order: the five import rules, the fixture-utility loop, the getter rule. -/
def lineIssues (fname : Str) (lines addedLines : List Str) (index : Nat)
    (cl : Str) : List Issue :=
  importRuleIssues fname lines index cl ++
  fixtureUtilsIssues fname lines addedLines index cl ++
  getterIssues fname lines index cl

/-- Multi-line-declaration scan of the streaming `validateTestFile`, applied
to the lines after the declaration: skip lines that are neither added nor
removed, succeed when a scanned line contains `withFixtures`, otherwise
track parenthesis depth and stop when the declaration's own parentheses
close (or depth is exhausted). Returns `foundWithFixtures`. -/
def declScanAux : List Str → Int → Bool
  | [], _ => false
  | l :: rest, pd =>
    if !startsWithStr l (str "+") && !startsWithStr l (str "-") then declScanAux rest pd
    else
      let cleanNextLine := trimStr (l.drop 1)
      if strContains cleanNextLine (str "withFixtures") then true
      else
        match lineParenStep cleanNextLine pd with
        | (_, true) => false
        | (pd2, false) => if pd2 > 0 then declScanAux rest pd2 else false

/-- Block scan of the streaming `validateTestFile`, applied to the lines
after the declaration: skip removed lines, succeed when a scanned (added or
context) line contains a `withFixtures` call, otherwise track brace depth
and stop when the block closes. Returns `foundWithFixtures`. -/
def blockScanAux : List Str → Int → Bool
  | [], _ => false
  | l :: rest, bd =>
    if startsWithStr l (str "-") then blockScanAux rest bd
    else
      let cleanNextLine := if startsWithStr l (str "+") then trimStr (l.drop 1) else trimStr l
      if strContains cleanNextLine (str "withFixtures(") ||
          strContains cleanNextLine (str "withFixtures.") ||
          strContains cleanNextLine (str "withFixtures (") ||
          searchWithFixturesCall cleanNextLine then true
      else
        match lineBraceStep cleanNextLine bd with
        | (_, true) => false
        | (bd2, false) => if bd2 ≥ 0 then blockScanAux rest bd2 else false

/-- Embeds the streaming engine's `validateTestFile(file, lines, issues)`:
for every added test-declaration line, pass when the declaration line itself
mentions `withFixtures`; otherwise scan a multi-line declaration's own
parentheses, then the test block, for a fixture call, and on failure push a
`test-withfixtures` issue anchored via the preceding hunk header. -/
def validateTestFile (fname : Str) (lines : List Str) : List Issue :=
  let testBlockLines := lines.filter (fun l => isAdded l && searchIt (trimStr (l.drop 1)))
  testBlockLines.flatMap (fun testLine =>
    let lineIndex := List.findIdx (fun l => l == testLine) lines
    let testLineClean := trimStr (testLine.drop 1)
    if strContains testLineClean (str "withFixtures") then []
    else
      let parenDepth := countDepth '(' ')' testLineClean
      let blockDepth := countDepth '\x7b' '\x7d' testLineClean
      let foundInDecl :=
        if parenDepth > 0 then declScanAux (lines.drop (lineIndex + 1)) parenDepth else false
      if foundInDecl then []
      else
        let foundInBlock :=
          if blockDepth ≥ 0 then blockScanAux (lines.drop (lineIndex + 1)) blockDepth else false
        if foundInBlock then []
        else [mkIssue fname (hunkAnchoredLine lines lineIndex) testLineClean
                CheckType.testWithfixtures])

/-- Embeds the streaming engine's `validateFileContent(file)`: files without
a patch yield nothing, files outside `e2e/` yield nothing, otherwise the
per-line rules run over every added line and `.spec.ts` files additionally
run the test-block scanner. -/
def validateFileContent (fname : Str) (patch : Option Str) : List Issue :=
  match patch with
  | none => []
  | some p =>
    if !startsWithStr fname (str "e2e/") then []
    else
      let lines := splitOnNewline p
      let addedLines := lines.filter isAdded
      addedLines.enum.flatMap
        (fun ie => lineIssues fname lines addedLines ie.1 (trimStr (ie.2.drop 1))) ++
      (if endsWithStr fname (str ".spec.ts") then validateTestFile fname lines else [])

end Stream

namespace PrV

/-- Block scan of the non-streaming `validateTestFile`: only added lines are
scanned, a plain `withFixtures` substring sets the found flag without
leaving the loop, and brace depth is tracked as in the streaming engine. -/
def blockScanPrV : List Str → Int → Bool → Bool
  | [], _, found => found
  | l :: rest, bd, found =>
    if !startsWithStr l (str "+") || startsWithStr l (str "+++") then blockScanPrV rest bd found
    else
      let cleanNextLine := trimStr (l.drop 1)
      let found2 := found || strContains cleanNextLine (str "withFixtures")
      match lineBraceStep cleanNextLine bd with
      | (_, true) => found2
      | (bd2, false) => if bd2 ≥ 0 then blockScanPrV rest bd2 found2 else found2

/-- Embeds the non-streaming engine's `validateTestFile(file, lines,
issues)` from `prValidator.ts`: no early pass for a fixture call on the
declaration line and no parenthesis scan — only the brace-depth block scan
over added lines. -/
def validateTestFile (fname : Str) (lines : List Str) : List Issue :=
  let testBlockLines := lines.filter (fun l => isAdded l && searchIt (trimStr (l.drop 1)))
  testBlockLines.flatMap (fun testLine =>
    let lineIndex := List.findIdx (fun l => l == testLine) lines
    let testLineClean := trimStr (testLine.drop 1)
    let blockDepth := countDepth '\x7b' '\x7d' testLineClean
    let found :=
      if blockDepth ≥ 0 then blockScanPrV (lines.drop (lineIndex + 1)) blockDepth false
      else false
    if found then []
    else [mkIssue fname (hunkAnchoredLine lines lineIndex) testLineClean
            CheckType.testWithfixtures])

/-- All issues the non-streaming engine pushes for one added line: the
five import rules followed by the getter rule (no fixture-utility loop). -/
def lineIssues (fname : Str) (lines : List Str) (index : Nat) (cl : Str) : List Issue :=
  importRuleIssues fname lines index cl ++ getterIssues fname lines index cl

/-- Embeds the non-streaming engine's `validateFileContent(file)` from
`prValidator.ts`: no `e2e/` filename filter. -/
def validateFileContent (fname : Str) (patch : Option Str) : List Issue :=
  match patch with
  | none => []
  | some p =>
    let lines := splitOnNewline p
    let addedLines := lines.filter isAdded
    addedLines.enum.flatMap
      (fun ie => lineIssues fname lines ie.1 (trimStr (ie.2.drop 1))) ++
    (if endsWithStr fname (str ".spec.ts") then validateTestFile fname lines else [])

end PrV

/-- The `{owner, repo, pullNumber}` record of `parseGitHubPrUrl`. -/
structure PrInfo where
  owner : Str
  repo : Str
  pullNumber : Nat
deriving DecidableEq, Repr

/-- Matcher, at a fixed position, for the PR-URL regex
`/https:\/\/github\.com\/([^\/]+)\/([^\/]+)\/pull\/(\d+)/`, returning the
three captures (the pull number still as its digit string). -/
def matchPrUrlAt (cs : Str) : Option (Str × Str × Str) :=
  match consumeLit (str "https://github.com/") cs with
  | none => none
  | some r0 =>
    let o := r0.takeWhile (fun c => !(c = '/'))
    let r1 := r0.dropWhile (fun c => !(c = '/'))
    if o.isEmpty then none
    else
      match consumeLit (str "/") r1 with
      | none => none
      | some r2 =>
        let rp := r2.takeWhile (fun c => !(c = '/'))
        let r3 := r2.dropWhile (fun c => !(c = '/'))
        if rp.isEmpty then none
        else
          match consumeLit (str "/pull/") r3 with
          | none => none
          | some r4 =>
            let d := r4.takeWhile Char.isDigit
            if d.isEmpty then none else some (o, rp, d)

/-- Embeds `parseGitHubPrUrl(prUrl)` (identical in both copies of
`prValidator.ts`): the leftmost match of the unanchored PR-URL regex, or
`none` for the thrown `'Invalid GitHub PR URL'`. -/
def parseGitHubPrUrl (prUrl : Str) : Option PrInfo :=
  match searchOptAux matchPrUrlAt prUrl with
  | some (o, rp, d) => some { owner := o, repo := rp, pullNumber := natOfDigits d }
  | none => none

/-- One changed file as supplied by the PR-fetch collaborator. -/
structure FileDiff where
  filename : Str
  patch : Option Str
deriving DecidableEq, Repr

/-- PR metadata `{title, url, author}`. -/
structure PrMeta where
  title : Str
  url : Str
  author : Str
deriving DecidableEq, Repr

/-- The `ValidationResult` record returned by `validatePr`. -/
structure ValidationResult where
  pr : PrMeta
  issues : List Issue
  filesChecked : Nat
  checkedFiles : List Str
deriving DecidableEq, Repr

/-- What one GitHub fetch returns: PR metadata and the changed files. -/
structure FetchData where
  meta : PrMeta
  files : List FileDiff

/-- Embeds the assembly loop of `validatePr`: push every filename to
`checkedFiles`, concatenate the per-file issues, and report
`filesChecked: files.length`. -/
def buildReport (meta : PrMeta) (files : List FileDiff) : ValidationResult :=
  { pr := meta,
    issues := files.flatMap (fun f => PrV.validateFileContent f.filename f.patch),
    filesChecked := files.length,
    checkedFiles := files.map (fun f => f.filename) }

/-- Embeds `validatePr(prLink)` with the GitHub API as a pure oracle: parse
the PR URL first (its failure is rethrown by the surrounding catch as
`Failed to validate PR: ...` without consulting the oracle), then assemble
the report from the fetched files. -/
def validatePr (fetch : PrInfo → FetchData) (prLink : Str) : Except Str ValidationResult :=
  match parseGitHubPrUrl prLink with
  | none => Except.error (str "Failed to validate PR: Invalid GitHub PR URL")
  | some info => Except.ok (buildReport (fetch info).meta (fetch info).files)

/-- Lines of a patch strictly before its `i`-th added line (0-based). -/
def linesBeforeAdded : List Str → Nat → List Str
  | [], _ => []
  | l :: rest, i =>
    if isAdded l then
      if i = 0 then [] else l :: linesBeforeAdded rest (i - 1)
    else l :: linesBeforeAdded rest i

/-- Number of added lines in a patch. -/
def countAdded (lines : List Str) : Nat := (lines.filter isAdded).length

/-- Number of `keepLine` lines (lines not starting with `-`) in a list. -/
def countKeep (lines : List Str) : Nat := lines.countP keepLine

/-- Position (index into all patch lines) of the `i`-th added line. -/
def posOfAdded : List Str → Nat → Option Nat
  | [], _ => none
  | l :: rest, i =>
    if isAdded l then
      if i = 0 then some 0 else (posOfAdded rest (i - 1)).map (fun p => p + 1)
    else (posOfAdded rest i).map (fun p => p + 1)

/-- Reference recovery algorithm of the hunk/line indexer as the
specification words it: locate the `i`-th added line, find the nearest
preceding hunk header, parse its new-file start, count the non-removed lines
between the header and the target, and return `newStart + count - 1`;
`'N/A'` when no header precedes the line or it does not match the pattern.
It reuses `hunkAnchoredLine`, the code's own implementation of exactly this
algorithm inside `validateTestFile`. -/
def specHunkRecoveredLine (lines : List Str) (i : Nat) : LineNo :=
  match posOfAdded lines i with
  | none => LineNo.na
  | some p => hunkAnchoredLine lines p

/-- Well-formedness of PR-URL components per the specification's shape
`https://host/<owner>/<repo>/pull/<number>`: nonempty slash-free owner and
repo, nonempty digit string. -/
def specPrUrlParts (o r d : Str) : Prop :=
  o ≠ [] ∧ (∀ c ∈ o, c ≠ '/') ∧ r ≠ [] ∧ (∀ c ∈ r, c ≠ '/') ∧
  d ≠ [] ∧ (∀ c ∈ d, Char.isDigit c)

/-- The exact PR-URL string built from components. -/
def prUrlCore (o r d : Str) : Str :=
  str "https://github.com/" ++ (o ++ ('/' :: (r ++ (str "/pull/" ++ d))))

/-- Follows the specification's words: the input string is, as a whole, of
the PR-URL shape `https://host/<owner>/<repo>/pull/<number>`. -/
def specPrUrlShape (s : Str) : Prop :=
  ∃ o r d, specPrUrlParts o r d ∧ s = prUrlCore o r d

/-- Some substring of the input is of the PR-URL shape. -/
def specPrUrlSubstring (s : Str) : Prop :=
  ∃ pre o r d post, specPrUrlParts o r d ∧ s = pre ++ (prUrlCore o r d ++ post)

/-- Whether a scanned added line contains the `/framework` fragment, as the
fixture-utility scanner cleans and tests it. -/
def lineHasFw (l : Str) : Bool := strContains (trimStr (l.drop 1)) (str "/framework")

/-- Whether a scanned added line contains a closing brace, as the
fixture-utility scanner cleans and tests it. -/
def lineHasCloseBrace (l : Str) : Bool := strContains (trimStr (l.drop 1)) (str "\x7d")

lemma str_plus : str "+" = ['+'] := rfl

lemma str_dash : str "-" = ['-'] := rfl

/-- An added line starts with `+`, hence does not start with `-`. -/
lemma keepLine_of_isAdded {l : Str} (h : isAdded l = true) : keepLine l = true := by
  cases l with
  | nil => exact absurd h (by decide)
  | cons c cs =>
    have hc : c = '+' := by
      have h1 : startsWithStr (c :: cs) (str "+") = true := by
        unfold isAdded at h
        simp only [Bool.and_eq_true] at h
        exact h.1
      rw [startsWithStr, str_plus] at h1
      simp [List.isPrefixOf] at h1
      exact h1.symm
    subst hc
    simp [keepLine, startsWithStr, str_dash, show str "---" = ['-', '-', '-'] from rfl,
      List.isPrefixOf]

lemma countAdded_nil : countAdded [] = 0 := rfl

lemma countAdded_cons (l : Str) (rest : List Str) :
    countAdded (l :: rest) = (if isAdded l then 1 else 0) + countAdded rest := by
  simp only [countAdded, List.filter_cons]
  split <;> simp [Nat.add_comm]

/-- Characterisation of the `getOriginalLineNumber` loop: with `cnt` added
lines and `orig` non-removed lines already consumed, the result for target
ordinal `i` is the running count of non-removed lines strictly before the
`(i - cnt)`-th remaining added line, or `'N/A'` when fewer added lines
remain. -/
lemma golAux_eq (ls : List Str) : ∀ (i cnt orig : Nat), cnt ≤ i →
    getOriginalLineNumberAux ls i cnt orig =
      (if i - cnt < countAdded ls then
        LineNo.num ((orig + countKeep (linesBeforeAdded ls (i - cnt)) : Nat) : Int)
      else LineNo.na) := by
  induction ls with
  | nil =>
    intro i cnt orig _
    simp [getOriginalLineNumberAux, countAdded_nil]
  | cons l rest ih =>
    intro i cnt orig hci
    by_cases ha : isAdded l = true
    · by_cases hc : cnt = i
      · subst hc
        simp [getOriginalLineNumberAux, ha, countAdded_cons, linesBeforeAdded, countKeep]
      · have hlt : cnt < i := lt_of_le_of_ne hci hc
        have hstep : getOriginalLineNumberAux (l :: rest) i cnt orig =
            getOriginalLineNumberAux rest i (cnt + 1) (orig + 1) := by
          simp [getOriginalLineNumberAux, ha, hc, keepLine_of_isAdded ha]
        rw [hstep, ih i (cnt + 1) (orig + 1) hlt]
        have hsub : i - cnt = (i - (cnt + 1)) + 1 := by omega
        have hbefore : linesBeforeAdded (l :: rest) (i - cnt) =
            l :: linesBeforeAdded rest (i - (cnt + 1)) := by
          rw [hsub]
          simp [linesBeforeAdded, ha]
        rw [countAdded_cons, hbefore]
        simp only [ha, if_true]
        have hcond : (i - (cnt + 1) < countAdded rest) ↔ (i - cnt < 1 + countAdded rest) := by
          omega
        by_cases hlt2 : i - (cnt + 1) < countAdded rest
        · simp only [hlt2, if_true, hcond.mp hlt2, if_true]
          congr 1
          simp [countKeep, List.countP_cons, keepLine_of_isAdded ha]
          omega
        · simp [hlt2, hcond.not.mp hlt2]
    · have ha' : isAdded l = false := by simpa using ha
      have hstep : getOriginalLineNumberAux (l :: rest) i cnt orig =
          getOriginalLineNumberAux rest i cnt (if keepLine l then orig + 1 else orig) := by
        simp [getOriginalLineNumberAux, ha']
      rw [hstep, ih i cnt _ hci]
      have hbefore : linesBeforeAdded (l :: rest) (i - cnt) =
          l :: linesBeforeAdded rest (i - cnt) := by
        simp [linesBeforeAdded, ha']
      rw [countAdded_cons, hbefore]
      simp only [ha', if_false, Bool.false_eq_true]
      by_cases hlt2 : i - cnt < countAdded rest
      · have : i - cnt < 0 + countAdded rest := by omega
        simp only [hlt2, if_true, this, if_true]
        congr 1
        cases hk : keepLine l <;> (simp [countKeep, List.countP_cons, hk]; try omega)
      · have : ¬(i - cnt < 0 + countAdded rest) := by omega
        simp [hlt2, this]

/-- Unconditional characterisation of `getOriginalLineNumber`: it ignores
hunk headers and returns the count of non-removed lines strictly preceding
the `i`-th added line, with `'N/A'` exactly when `i` is out of range. -/
lemma gol_eq (lines : List Str) (i : Nat) :
    getOriginalLineNumber lines i =
      (if i < countAdded lines then
        LineNo.num ((countKeep (linesBeforeAdded lines i) : Nat) : Int)
      else LineNo.na) := by
  have h := golAux_eq lines i 0 0 (Nat.zero_le i)
  simpa [getOriginalLineNumber] using h

/-- Strictly between two valid added-line ordinals, the prefix of scanned
lines grows by at least the earlier added line itself. -/
lemma linesBeforeAdded_decomp (ls : List Str) : ∀ i j, i < j → j < countAdded ls →
    ∃ l mid, isAdded l = true ∧
      linesBeforeAdded ls j = linesBeforeAdded ls i ++ l :: mid := by
  induction ls with
  | nil =>
    intro i j _ hj
    rw [countAdded_nil] at hj
    omega
  | cons x rest ih =>
    intro i j hij hj
    rw [countAdded_cons] at hj
    by_cases hx : isAdded x = true
    · rcases Nat.eq_zero_or_pos i with hi0 | hipos
      · subst hi0
        refine ⟨x, linesBeforeAdded rest (j - 1), hx, ?_⟩
        have hj0 : ¬(j = 0) := by omega
        simp [linesBeforeAdded, hx, hj0]
      · have hi0 : ¬(i = 0) := by omega
        have hj0 : ¬(j = 0) := by omega
        obtain ⟨l, mid, hl, heq⟩ := ih (i - 1) (j - 1) (by omega) (by
          rw [hx] at hj; simp at hj; omega)
        refine ⟨l, mid, hl, ?_⟩
        simp [linesBeforeAdded, hx, hi0, hj0, heq]
    · have hx' : isAdded x = false := by simpa using hx
      obtain ⟨l, mid, hl, heq⟩ := ih i j hij (by rw [hx'] at hj; simpa using hj)
      refine ⟨l, mid, hl, ?_⟩
      simp [linesBeforeAdded, hx', heq]

/-- C1 counterexample: on a patch with a well-formed hunk header starting at
new-file line 10, `getOriginalLineNumber` returns 2 (the count of preceding
non-removed patch lines, header included) while the specified hunk-based
algorithm returns 10; and on a patch with no hunk header at all it returns 0
rather than the `'N/A'` sentinel. -/
theorem C1_counterexample :
    getOriginalLineNumber [str "@@ -1,3 +10,4 @@", str " ctx", str "+new"] 0 = LineNo.num 2 ∧
    specHunkRecoveredLine [str "@@ -1,3 +10,4 @@", str " ctx", str "+new"] 0 = LineNo.num 10 ∧
    getOriginalLineNumber [str "@@ -1,3 +10,4 @@", str " ctx", str "+new"] 0 ≠
      specHunkRecoveredLine [str "@@ -1,3 +10,4 @@", str " ctx", str "+new"] 0 ∧
    getOriginalLineNumber [str "+x"] 0 = LineNo.num 0 ∧
    specHunkRecoveredLine [str "+x"] 0 = LineNo.na := by
  refine ⟨by decide, by decide, by decide, by decide, by decide⟩

/-- C1 (amended): `getOriginalLineNumber` ignores hunk headers entirely —
for the `i`-th added line it returns the number of lines not starting with
`-` (hunk headers and the `+++` header included) strictly preceding that
added line in the patch, and it returns the `'N/A'` sentinel exactly when
`i` is not less than the number of added lines; in particular, for a patch
with no hunk headers the result is that count, not `'N/A'`. -/
theorem C1_theorem (lines : List Str) (i : Nat) :
    getOriginalLineNumber lines i =
      (if i < countAdded lines then
        LineNo.num ((countKeep (linesBeforeAdded lines i) : Nat) : Int)
      else LineNo.na) :=
  gol_eq lines i

/-- C6: recovered line numbers are strictly monotone in the added line's
ordinal position, for every patch (in particular for every well-formed
single-hunk patch) whose later ordinal is in range. -/
theorem C6_theorem (lines : List Str) (i j : Nat) (hij : i < j) (hj : j < countAdded lines) :
    ∃ a b : Int, getOriginalLineNumber lines i = LineNo.num a ∧
      getOriginalLineNumber lines j = LineNo.num b ∧ a < b := by
  have hi : i < countAdded lines := lt_trans hij hj
  refine ⟨(countKeep (linesBeforeAdded lines i) : Nat),
    (countKeep (linesBeforeAdded lines j) : Nat), ?_, ?_, ?_⟩
  · rw [gol_eq]
    simp [hi]
  · rw [gol_eq]
    simp [hj]
  · obtain ⟨l, mid, hl, heq⟩ := linesBeforeAdded_decomp lines i j hij hj
    have hcnt : countKeep (linesBeforeAdded lines j) =
        countKeep (linesBeforeAdded lines i) + countKeep (l :: mid) := by
      rw [heq]
      simp [countKeep, List.countP_append]
    have hpos : 0 < countKeep (l :: mid) := by
      simp [countKeep, List.countP_cons, keepLine_of_isAdded hl]
    have : countKeep (linesBeforeAdded lines i) < countKeep (linesBeforeAdded lines j) := by
      omega
    exact_mod_cast this

/-- C6 witness at a concrete two-added-line patch. -/
theorem C6_witness :
    0 < 1 ∧ 1 < countAdded [str "+a", str "+b"] ∧
    (∃ a b : Int, getOriginalLineNumber [str "+a", str "+b"] 0 = LineNo.num a ∧
      getOriginalLineNumber [str "+a", str "+b"] 1 = LineNo.num b ∧ a < b) :=
  ⟨by decide, by decide, C6_theorem [str "+a", str "+b"] 0 1 (by decide) (by decide)⟩

/-- C2: on a `.spec.ts` e2e file whose patch adds the single test line
`it('does X', async () => { await something(); });` with no fixture call,
the streaming engine produces exactly one Issue, of kind
`test-withfixtures`, anchored to that line (whose snippet it carries); with
the fixture call `withFixtures(...)` on the declaration line itself it
produces zero Issues. -/
theorem C2_theorem :
    Stream.validateFileContent (str "e2e/foo.spec.ts")
        (some (str "@@ -1,1 +1,1 @@\n+it(\x27does X\x27, async () => \x7b await something(); \x7d);")) =
      [mkIssue (str "e2e/foo.spec.ts") (LineNo.num 0)
        (str "it(\x27does X\x27, async () => \x7b await something(); \x7d);")
        CheckType.testWithfixtures] ∧
    Stream.validateFileContent (str "e2e/foo.spec.ts")
        (some (str "@@ -1,1 +1,1 @@\n+it(\x27does X\x27, async () => \x7b await withFixtures(\x7b\x7d, async () => \x7b...\x7d); \x7d);")) =
      [] := by
  constructor
  · decide
  · decide

/-- C5: the added line `import { Assertions } from '../Assertions.ts';`
produces exactly the two Issues `assertions-framework` and
`assertions-no-ts` (in that order), and the added line
`import { Assertions } from '../framework/Assertions';` produces zero
Issues — in both the streaming and the non-streaming engine. -/
theorem C5_theorem :
    Stream.validateFileContent (str "e2e/test.ts")
        (some (str "@@ -1,1 +1,1 @@\n+import \x7b Assertions \x7d from \x27../Assertions.ts\x27;")) =
      [mkIssue (str "e2e/test.ts") (LineNo.num 1)
        (str "import \x7b Assertions \x7d from \x27../Assertions.ts\x27;")
        CheckType.assertionsFramework,
       mkIssue (str "e2e/test.ts") (LineNo.num 1)
        (str "import \x7b Assertions \x7d from \x27../Assertions.ts\x27;")
        CheckType.assertionsNoTs] ∧
    PrV.validateFileContent (str "e2e/test.ts")
        (some (str "@@ -1,1 +1,1 @@\n+import \x7b Assertions \x7d from \x27../Assertions.ts\x27;")) =
      [mkIssue (str "e2e/test.ts") (LineNo.num 1)
        (str "import \x7b Assertions \x7d from \x27../Assertions.ts\x27;")
        CheckType.assertionsFramework,
       mkIssue (str "e2e/test.ts") (LineNo.num 1)
        (str "import \x7b Assertions \x7d from \x27../Assertions.ts\x27;")
        CheckType.assertionsNoTs] ∧
    Stream.validateFileContent (str "e2e/test.ts")
        (some (str "@@ -1,1 +1,1 @@\n+import \x7b Assertions \x7d from \x27../framework/Assertions\x27;")) = [] ∧
    PrV.validateFileContent (str "e2e/test.ts")
        (some (str "@@ -1,1 +1,1 @@\n+import \x7b Assertions \x7d from \x27../framework/Assertions\x27;")) = [] := by
  refine ⟨by decide, by decide, by decide, by decide⟩

/-- C10: the streaming engine returns zero Issues for every file whose name
does not start with `e2e/`, regardless of patch content, while the
non-streaming engine applies its rules to files of any path — witnessed by
a non-e2e file with a flagged Assertions import on which the two engines
disagree. -/
theorem C10_theorem :
    (∀ (fname : Str) (patch : Option Str), startsWithStr fname (str "e2e/") = false →
      Stream.validateFileContent fname patch = []) ∧
    PrV.validateFileContent (str "app/util.ts")
        (some (str "+import \x7b Assertions \x7d from \x27./Assertions\x27;")) =
      [mkIssue (str "app/util.ts") (LineNo.num 0)
        (str "import \x7b Assertions \x7d from \x27./Assertions\x27;")
        CheckType.assertionsFramework] ∧
    Stream.validateFileContent (str "app/util.ts")
        (some (str "+import \x7b Assertions \x7d from \x27./Assertions\x27;")) = [] := by
  refine ⟨?_, by decide, by decide⟩
  intro fname patch h
  cases patch with
  | none => rfl
  | some p => simp [Stream.validateFileContent, h]

/-- C10 witness: the universally quantified first part applied to a
concrete non-e2e file. -/
theorem C10_witness :
    startsWithStr (str "app/other.ts") (str "e2e/") = false ∧
    Stream.validateFileContent (str "app/other.ts")
        (some (str "+import \x7b Assertions \x7d from \x27./Assertions\x27;")) = [] :=
  ⟨by decide, C10_theorem.1 (str "app/other.ts")
    (some (str "+import \x7b Assertions \x7d from \x27./Assertions\x27;")) (by decide)⟩

lemma mem_condIssue {b : Bool} {i x : Issue} (h : x ∈ condIssue b i) : x = i := by
  unfold condIssue at h
  split at h
  · simpa using h
  · exact absurd h (List.not_mem_nil x)

/-- Every issue pushed by the five import rules carries the file's name. -/
lemma importRuleIssues_mem {fname cl : Str} {lines : List Str} {index : Nat} {x : Issue}
    (h : x ∈ importRuleIssues fname lines index cl) : x.file = fname := by
  unfold importRuleIssues at h
  simp only [List.mem_append] at h
  rcases h with ((((h | h) | h) | h) | h) <;> (rw [mem_condIssue h]; rfl)

/-- Every issue pushed by the getter rule carries the file's name. -/
lemma getterIssues_mem {fname cl : Str} {lines : List Str} {index : Nat} {x : Issue}
    (h : x ∈ getterIssues fname lines index cl) : x.file = fname := by
  unfold getterIssues at h
  split at h
  · split at h
    · split at h
      · exact absurd h (List.not_mem_nil x)
      · rw [mem_condIssue h]; rfl
    · rw [mem_condIssue h]; rfl
  · exact absurd h (List.not_mem_nil x)

/-- Every issue pushed by the fixture-utility loop carries the file's name. -/
lemma fixtureUtilsAux_mem {fname cl : Str} {lines addedLines : List Str} {index : Nat}
    {x : Issue} : ∀ syms : List Str,
    x ∈ Stream.fixtureUtilsAux fname lines addedLines index cl syms → x.file = fname := by
  intro syms
  induction syms with
  | nil =>
    intro h
    exact absurd h (by simp [Stream.fixtureUtilsAux])
  | cons sym rest ih =>
    intro h
    unfold Stream.fixtureUtilsAux at h
    dsimp only at h
    split at h
    · split at h
      · simp at h
        subst h
        rfl
      · exact ih h
    · exact ih h

/-- Every issue pushed by the streaming test-block scanner carries the
file's name. -/
lemma streamTestFile_mem {fname : Str} {lines : List Str} {x : Issue}
    (h : x ∈ Stream.validateTestFile fname lines) : x.file = fname := by
  unfold Stream.validateTestFile at h
  simp only [List.mem_flatMap] at h
  obtain ⟨t, _, hx⟩ := h
  repeat split at hx
  all_goals first
    | exact absurd hx (List.not_mem_nil x)
    | (simp at hx; simp_all [mkIssue])

/-- Every issue produced by the streaming engine carries the file's name. -/
lemma stream_validate_mem {fname : Str} {patch : Option Str} {x : Issue}
    (h : x ∈ Stream.validateFileContent fname patch) : x.file = fname := by
  cases patch with
  | none => exact absurd h (by simp [Stream.validateFileContent])
  | some p =>
    unfold Stream.validateFileContent at h
    dsimp only at h
    split at h
    · exact absurd h (List.not_mem_nil x)
    · simp only [List.mem_append, List.mem_flatMap] at h
      rcases h with ⟨ie, _, hx⟩ | h
      · unfold Stream.lineIssues at hx
        unfold Stream.fixtureUtilsIssues at hx
        simp only [List.mem_append] at hx
        rcases hx with (hx | hx) | hx
        · exact importRuleIssues_mem hx
        · exact fixtureUtilsAux_mem FIXTURE_IMPORTS hx
        · exact getterIssues_mem hx
      · split at h
        · exact streamTestFile_mem h
        · exact absurd h (List.not_mem_nil x)

/-- Every issue pushed by the non-streaming test-block scanner carries the
file's name. -/
lemma prvTestFile_mem {fname : Str} {lines : List Str} {x : Issue}
    (h : x ∈ PrV.validateTestFile fname lines) : x.file = fname := by
  unfold PrV.validateTestFile at h
  simp only [List.mem_flatMap] at h
  obtain ⟨t, _, hx⟩ := h
  repeat split at hx
  all_goals first
    | exact absurd hx (List.not_mem_nil x)
    | (simp at hx; simp_all [mkIssue])

/-- Every issue produced by the non-streaming engine carries the file's
name. -/
lemma prv_validate_mem {fname : Str} {patch : Option Str} {x : Issue}
    (h : x ∈ PrV.validateFileContent fname patch) : x.file = fname := by
  cases patch with
  | none => exact absurd h (by simp [PrV.validateFileContent])
  | some p =>
    unfold PrV.validateFileContent at h
    simp only [List.mem_append, List.mem_flatMap] at h
    rcases h with ⟨ie, _, hx⟩ | h
    · unfold PrV.lineIssues at hx
      simp only [List.mem_append] at hx
      rcases hx with hx | hx
      · exact importRuleIssues_mem hx
      · exact getterIssues_mem hx
    · split at h
      · exact prvTestFile_mem h
      · exact absurd h (List.not_mem_nil x)

/-- C7: for every PR metadata and changed-file list, the assembled
ValidationReport satisfies `filesChecked = length checkedFiles`, and the
`file` field of every Issue in the report appears in `checkedFiles`. -/
theorem C7_theorem (meta : PrMeta) (files : List FileDiff) :
    (buildReport meta files).filesChecked = (buildReport meta files).checkedFiles.length ∧
    ∀ x ∈ (buildReport meta files).issues, x.file ∈ (buildReport meta files).checkedFiles := by
  constructor
  · simp [buildReport]
  · intro x hx
    simp only [buildReport, List.mem_flatMap] at hx
    obtain ⟨f, hf, hxf⟩ := hx
    have hfile := prv_validate_mem hxf
    simp only [buildReport, List.mem_map]
    exact ⟨f, hf, hfile.symm⟩

/-- C7 witness: the invariant applied to a concrete one-file PR whose file
produces an issue. -/
theorem C7_witness :
    (buildReport { title := [], url := [], author := [] }
        [{ filename := str "x.ts",
           patch := some (str "+import \x7b Assertions \x7d from \x27./A\x27;") }]).filesChecked =
      (buildReport { title := [], url := [], author := [] }
        [{ filename := str "x.ts",
           patch := some (str "+import \x7b Assertions \x7d from \x27./A\x27;") }]).checkedFiles.length ∧
    mkIssue (str "x.ts") (LineNo.num 0) (str "import \x7b Assertions \x7d from \x27./A\x27;")
        CheckType.assertionsFramework ∈
      (buildReport { title := [], url := [], author := [] }
        [{ filename := str "x.ts",
           patch := some (str "+import \x7b Assertions \x7d from \x27./A\x27;") }]).issues ∧
    (mkIssue (str "x.ts") (LineNo.num 0) (str "import \x7b Assertions \x7d from \x27./A\x27;")
        CheckType.assertionsFramework).file ∈
      (buildReport { title := [], url := [], author := [] }
        [{ filename := str "x.ts",
           patch := some (str "+import \x7b Assertions \x7d from \x27./A\x27;") }]).checkedFiles :=
  ⟨(C7_theorem _ _).1, by decide, (C7_theorem _ _).2 _ (by decide)⟩

/-- C8: the streaming engine's per-file evaluation is a total function
returning an Issue list whose entries always carry the evaluated file's name
(no exception escapes for any filename/patch — in the embedding all loops
are structurally bounded), and a concrete patch with an unparseable hunk
header degrades to the `'N/A'` line sentinel rather than failing. -/
theorem C8_theorem :
    (∀ (fname : Str) (patch : Option Str) (x : Issue),
        x ∈ Stream.validateFileContent fname patch → x.file = fname) ∧
    Stream.validateFileContent (str "e2e/a.spec.ts")
        (some (str "@@ malformed @@\n+it(\x27x\x27, () => \x7b\n+ nothing();\n+\x7d);")) =
      [mkIssue (str "e2e/a.spec.ts") LineNo.na (str "it(\x27x\x27, () => \x7b")
        CheckType.testWithfixtures] :=
  ⟨fun _ _ _ h => stream_validate_mem h, by decide⟩

/-- C8 witness: the universally quantified part applied to a concrete issue
of a concrete file. -/
theorem C8_witness :
    mkIssue (str "e2e/a.spec.ts") LineNo.na (str "it(\x27x\x27, () => \x7b")
        CheckType.testWithfixtures ∈
      Stream.validateFileContent (str "e2e/a.spec.ts")
        (some (str "@@ malformed @@\n+it(\x27x\x27, () => \x7b\n+ nothing();\n+\x7d);")) ∧
    (mkIssue (str "e2e/a.spec.ts") LineNo.na (str "it(\x27x\x27, () => \x7b")
        CheckType.testWithfixtures).file = str "e2e/a.spec.ts" :=
  ⟨by decide, C8_theorem.1 (str "e2e/a.spec.ts")
    (some (str "@@ malformed @@\n+it(\x27x\x27, () => \x7b\n+ nothing();\n+\x7d);")) _ (by decide)⟩


/-- One unfolding step of the forward fixture-utility walk. -/
lemma scanForwardFw_cons (a : Str) (rest : List Str) :
    Stream.scanForwardFw (a :: rest) =
      (if lineHasFw a = true then true
       else if lineHasCloseBrace a = true then false
       else Stream.scanForwardFw rest) := rfl

/-- The forward walk of the fixture-utility scanner succeeds exactly when
some scanned line contains the `/framework` fragment and no earlier scanned
line contains the fragment or a closing brace. -/
lemma scanForwardFw_iff (L : List Str) :
    Stream.scanForwardFw L = true ↔
      ∃ L1 l L2, L = L1 ++ l :: L2 ∧ lineHasFw l = true ∧
        ∀ y ∈ L1, lineHasFw y = false ∧ lineHasCloseBrace y = false := by
  induction L with
  | nil =>
    constructor
    · intro h
      exact absurd h (by simp [Stream.scanForwardFw])
    · rintro ⟨L1, l, L2, h, -, -⟩
      cases L1 <;> simp at h
  | cons a rest ih =>
    rw [scanForwardFw_cons]
    by_cases hfw : lineHasFw a = true
    · rw [if_pos hfw]
      constructor
      · intro _
        exact ⟨[], a, rest, rfl, hfw, by simp⟩
      · intro _
        rfl
    · have hfw2 : lineHasFw a = false := by simpa using hfw
      by_cases hbr : lineHasCloseBrace a = true
      · rw [if_neg hfw, if_pos hbr]
        constructor
        · intro h
          exact Bool.noConfusion h
        · rintro ⟨L1, l, L2, heq, hl, hall⟩
          cases L1 with
          | nil =>
            simp at heq
            rw [heq.1] at hfw2
            rw [hl] at hfw2
            exact Bool.noConfusion hfw2
          | cons b L1x =>
            simp at heq
            have hb := hall b (by simp)
            rw [heq.1] at hbr
            rw [hb.2] at hbr
            exact Bool.noConfusion hbr
      · rw [if_neg hfw, if_neg hbr, ih]
        constructor
        · rintro ⟨L1, l, L2, heq, hl, hall⟩
          refine ⟨a :: L1, l, L2, by rw [heq]; rfl, hl, ?_⟩
          intro y hy
          rcases List.mem_cons.mp hy with rfl | hy2
          · exact ⟨hfw2, by simpa using hbr⟩
          · exact hall y hy2
        · rintro ⟨L1, l, L2, heq, hl, hall⟩
          cases L1 with
          | nil =>
            simp at heq
            rw [heq.1] at hfw2
            rw [hl] at hfw2
            exact Bool.noConfusion hfw2
          | cons b L1x =>
            simp at heq
            refine ⟨L1x, l, L2, heq.2, hl, ?_⟩
            intro y hy
            exact hall y (List.mem_cons_of_mem b hy)

/-- Normal form of the fixture-utility loop on an added import line lacking
the `/framework` fragment: at most one issue, emitted exactly when some
restricted symbol occurs and the line is not an unclosed-brace multi-line
declaration whose forward scan finds the fragment (the backward branch is
dead in this scope, since the line contains the import keyword). -/
lemma fixtureUtilsAux_eq (fname : Str) (lines addedLines : List Str) (index : Nat) (cl : Str)
    (himp : strContains cl (str "import") = true)
    (hfw : strContains cl (str "/framework") = false) :
    ∀ syms : List Str,
      Stream.fixtureUtilsAux fname lines addedLines index cl syms =
        (if syms.any (fun sym => strContains cl sym) &&
            !(strContains cl (str "\x7b") && !strContains cl (str "\x7d") &&
              Stream.scanForwardFw (addedLines.drop index)) then
          [mkIssue fname (getOriginalLineNumber lines index) cl CheckType.fixtureUtilsFramework]
        else []) := by
  intro syms
  induction syms with
  | nil => simp [Stream.fixtureUtilsAux]
  | cons sym rest ih =>
    unfold Stream.fixtureUtilsAux
    dsimp only
    cases hs : strContains cl sym with
    | false => simp [himp, hs, hfw, ih]
    | true =>
      cases hm1 : (strContains cl (str "\x7b") && !strContains cl (str "\x7d")) with
      | false => simp [himp, hs, hfw, hm1]
      | true =>
        cases hscan : Stream.scanForwardFw (addedLines.drop index) with
        | false => simp [himp, hs, hfw, hm1, hscan]
        | true => simp [himp, hs, hfw, hm1, hscan, ih]

/-- C3: for an added line (the `index`-th added line of a patch, cleaned)
containing an import keyword and at least one restricted fixture-utility
symbol but not `/framework`, the streaming engine's multi-line import
scanner emits at most one `fixture-utils-framework` violation for the line,
and it suppresses the violation exactly when the line opens an unclosed
brace and the forward scan over subsequent added lines reaches a line
containing `/framework` before any line containing a closing brace; the
backward branch requires a line without the import keyword and is therefore
vacuous in this scope. -/
theorem C3_theorem (fname : Str) (lines addedLines : List Str) (index : Nat) (cl : Str)
    (_hA : addedLines = lines.filter isAdded)
    (_hcl : cl = trimStr ((addedLines.getD index []).drop 1))
    (himp : strContains cl (str "import") = true)
    (hsym : ∃ sym ∈ FIXTURE_IMPORTS, strContains cl sym = true)
    (hfw : strContains cl (str "/framework") = false) :
    (Stream.fixtureUtilsIssues fname lines addedLines index cl).length ≤ 1 ∧
    (∀ x ∈ Stream.fixtureUtilsIssues fname lines addedLines index cl,
      x.checkType = CheckType.fixtureUtilsFramework) ∧
    (Stream.fixtureUtilsIssues fname lines addedLines index cl = [] ↔
      (strContains cl (str "\x7b") = true ∧ strContains cl (str "\x7d") = false ∧
        ∃ L1 l L2, addedLines.drop index = L1 ++ l :: L2 ∧ lineHasFw l = true ∧
          ∀ y ∈ L1, lineHasFw y = false ∧ lineHasCloseBrace y = false)) := by
  have hany : FIXTURE_IMPORTS.any (fun sym => strContains cl sym) = true := by
    obtain ⟨sym, hmem, hsy⟩ := hsym
    exact List.any_eq_true.mpr ⟨sym, hmem, hsy⟩
  have heq := fixtureUtilsAux_eq fname lines addedLines index cl himp hfw FIXTURE_IMPORTS
  rw [hany] at heq
  simp only [Bool.true_and] at heq
  unfold Stream.fixtureUtilsIssues
  rw [heq]
  refine ⟨?_, ?_, ?_⟩
  · split <;> simp
  · intro x hx
    split at hx
    · simp at hx
      rw [hx]
      rfl
    · exact absurd hx (List.not_mem_nil x)
  · cases hm1 : (strContains cl (str "\x7b") && !strContains cl (str "\x7d")) with
    | false =>
      simp only [hm1, Bool.false_and, Bool.not_false, if_true]
      constructor
      · intro h
        exact absurd h (by simp)
      · rintro ⟨h1, h2, -⟩
        rw [h1, h2] at hm1
        exact Bool.noConfusion hm1
    | true =>
      have hm1' := Bool.and_eq_true _ _ ▸ hm1
      cases hscan : Stream.scanForwardFw (addedLines.drop index) with
      | false =>
        simp only [hscan, Bool.and_false, Bool.not_false, if_true]
        constructor
        · intro h
          exact absurd h (by simp)
        · rintro ⟨-, -, hex⟩
          rw [(scanForwardFw_iff (addedLines.drop index)).mpr hex] at hscan
          exact Bool.noConfusion hscan
      | true =>
        simp only [hscan, Bool.and_true, Bool.not_true, Bool.false_eq_true, if_false]
        constructor
        · intro _
          have hm2 : strContains cl (str "\x7b") = true ∧
              (!strContains cl (str "\x7d")) = true := by
            simpa [Bool.and_eq_true] using hm1
          refine ⟨hm2.1, by simpa using hm2.2, ?_⟩
          exact (scanForwardFw_iff (addedLines.drop index)).mp hscan
        · intro _
          trivial

/-- C3 witness: a concrete two-line multi-line fixture import whose second
added line supplies the `/framework` fragment, so no violation is emitted. -/
theorem C3_witness :
    (Stream.fixtureUtilsIssues (str "e2e/a.ts")
        [str "+import \x7b FixtureBuilder,", str "+ \x7d from \x27../framework/fixtures\x27;"]
        [str "+import \x7b FixtureBuilder,", str "+ \x7d from \x27../framework/fixtures\x27;"] 0
        (str "import \x7b FixtureBuilder,")).length ≤ 1 ∧
    (∀ x ∈ Stream.fixtureUtilsIssues (str "e2e/a.ts")
        [str "+import \x7b FixtureBuilder,", str "+ \x7d from \x27../framework/fixtures\x27;"]
        [str "+import \x7b FixtureBuilder,", str "+ \x7d from \x27../framework/fixtures\x27;"] 0
        (str "import \x7b FixtureBuilder,"),
      x.checkType = CheckType.fixtureUtilsFramework) ∧
    (Stream.fixtureUtilsIssues (str "e2e/a.ts")
        [str "+import \x7b FixtureBuilder,", str "+ \x7d from \x27../framework/fixtures\x27;"]
        [str "+import \x7b FixtureBuilder,", str "+ \x7d from \x27../framework/fixtures\x27;"] 0
        (str "import \x7b FixtureBuilder,") = [] ↔
      (strContains (str "import \x7b FixtureBuilder,") (str "\x7b") = true ∧
        strContains (str "import \x7b FixtureBuilder,") (str "\x7d") = false ∧
        ∃ L1 l L2,
          ([str "+import \x7b FixtureBuilder,",
            str "+ \x7d from \x27../framework/fixtures\x27;"].drop 0) = L1 ++ l :: L2 ∧
          lineHasFw l = true ∧
          ∀ y ∈ L1, lineHasFw y = false ∧ lineHasCloseBrace y = false)) :=
  C3_theorem (str "e2e/a.ts")
    [str "+import \x7b FixtureBuilder,", str "+ \x7d from \x27../framework/fixtures\x27;"]
    [str "+import \x7b FixtureBuilder,", str "+ \x7d from \x27../framework/fixtures\x27;"] 0
    (str "import \x7b FixtureBuilder,") (by decide) (by decide) (by decide)
    ⟨str "FixtureBuilder", by decide, by decide⟩ (by decide)

lemma word_not_space {c : Char} (h : isWordChar c = true) : isSpaceChar c = false := by
  cases hs : isSpaceChar c
  · rfl
  · exfalso
    simp only [isSpaceChar, Bool.or_eq_true, decide_eq_true_eq] at hs
    rcases hs with ((((rfl | rfl) | rfl) | rfl) | rfl) | rfl <;> simp [isWordChar] at h

lemma takeWhile_append_of_all {p : Char → Bool} :
    ∀ {l1 : Str} (l2 : Str), (∀ c ∈ l1, p c = true) →
      (l1 ++ l2).takeWhile p = l1 ++ l2.takeWhile p := by
  intro l1
  induction l1 with
  | nil => intro l2 _; rfl
  | cons a as ih =>
    intro l2 h
    have ha : p a = true := h a (by simp)
    simp only [List.cons_append, List.takeWhile_cons, ha, if_true]
    rw [ih l2 (fun c hc => h c (List.mem_cons_of_mem a hc))]

lemma dropWhile_append_of_all {p : Char → Bool} :
    ∀ {l1 : Str} (l2 : Str), (∀ c ∈ l1, p c = true) →
      (l1 ++ l2).dropWhile p = l2.dropWhile p := by
  intro l1
  induction l1 with
  | nil => intro l2 _; rfl
  | cons a as ih =>
    intro l2 h
    have ha : p a = true := h a (by simp)
    simp only [List.cons_append, List.dropWhile_cons, ha, if_true]
    exact ih l2 (fun c hc => h c (List.mem_cons_of_mem a hc))

/-- A successful substring test exhibits a decomposition of the string. -/
lemma strContains_exists {pat : Str} : ∀ {s : Str}, strContains s pat = true →
    ∃ pre post, s = pre ++ pat ++ post := by
  intro s
  induction s with
  | nil =>
    intro h
    unfold strContains at h
    split at h
    · rename_i hp
      obtain ⟨t, ht⟩ := List.isPrefixOf_iff_prefix.mp hp
      exact ⟨[], t, by simp [← ht]⟩
    · exact Bool.noConfusion h
  | cons c rest ih =>
    intro h
    unfold strContains at h
    split at h
    · rename_i hp
      obtain ⟨t, ht⟩ := List.isPrefixOf_iff_prefix.mp hp
      exact ⟨[], t, by simp [← ht]⟩
    · obtain ⟨pre, post, hc⟩ := ih h
      exact ⟨c :: pre, post, by simp [hc]⟩

/-- A character of a matched substring occurs in the string. -/
lemma mem_of_strContains {s pat : Str} {c : Char} (h : strContains s pat = true)
    (hc : c ∈ pat) : c ∈ s := by
  obtain ⟨pre, post, rfl⟩ := strContains_exists h
  simp [hc]

/-- A pattern containing a character absent from the string is not a
substring of it. -/
lemma strContains_eq_false_of_not_mem {s pat : Str} {c : Char} (hc : c ∈ pat)
    (hs : c ∉ s) : strContains s pat = false := by
  cases h : strContains s pat
  · rfl
  · exact absurd (mem_of_strContains h hc) hs

/-- On a line containing neither `.` nor `[`, the untyped-getter fallback
never fires: each of its five access patterns contains one of those two
characters. -/
lemma hasValidType_false {cl : Str} (hdot : '.' ∉ cl) (hbr : '[' ∉ cl) :
    hasValidType cl = false := by
  unfold hasValidType
  rw [List.any_eq_false]
  intro t _
  unfold hasValidTypePattern
  have h1 : strContains cl (t ++ str ".prototype.get") = false :=
    strContains_eq_false_of_not_mem (List.mem_append_right t (by decide)) hdot
  have h2 : strContains cl (t ++ str "['prototype']['get") = false :=
    strContains_eq_false_of_not_mem (List.mem_append_right t (by decide)) hbr
  have h3 : strContains cl (t ++ str ".get") = false :=
    strContains_eq_false_of_not_mem (List.mem_append_right t (by decide)) hdot
  have h4 : strContains cl (t ++ str "['get") = false :=
    strContains_eq_false_of_not_mem (List.mem_append_right t (by decide)) hbr
  have h5 : strContains cl (t ++ str "[\"get") = false :=
    strContains_eq_false_of_not_mem (List.mem_append_right t (by decide)) hbr
  simp [h1, h2, h3, h4, h5]

/-- Reduction of the getter-pattern matcher on a schematic getter line
`get <name>(...`: the word-class getter name is consumed and the pattern
succeeds at the opening parenthesis. -/
lemma matchGetterAt_front (name Xt : Str) (hn : name ≠ [])
    (hw : ∀ c ∈ name, isWordChar c = true) :
    matchGetterAt ('g' :: 'e' :: 't' :: ' ' :: (name ++ '(' :: Xt)) = true := by
  obtain ⟨a, as, rfl⟩ : ∃ a as, name = a :: as := by
    cases name with
    | nil => exact absurd rfl hn
    | cons a as => exact ⟨a, as, rfl⟩
  have hwa : isWordChar a = true := hw a (by simp)
  have hsa : isSpaceChar a = false := word_not_space hwa
  have hsp : isSpaceChar ' ' = true := by decide
  have hwp : isWordChar '(' = false := by decide
  have hpp : isSpaceChar '(' = false := by decide
  have e1 : (' ' :: ((a :: as) ++ '(' :: Xt)).takeWhile isSpaceChar = [' '] := by
    simp [List.takeWhile_cons, hsa, hsp]
  have e2 : (' ' :: ((a :: as) ++ '(' :: Xt)).dropWhile isSpaceChar = (a :: as) ++ '(' :: Xt := by
    simp [List.dropWhile_cons, hsa, hsp]
  have e3 : ((a :: as) ++ '(' :: Xt).takeWhile isWordChar = a :: as := by
    rw [takeWhile_append_of_all _ hw]
    simp [List.takeWhile_cons, hwp]
  have e4 : ((a :: as) ++ '(' :: Xt).dropWhile isWordChar = '(' :: Xt := by
    rw [dropWhile_append_of_all _ hw]
    simp [List.dropWhile_cons, hwp]
  have e5 : ('(' :: Xt).dropWhile isSpaceChar = '(' :: Xt := by
    simp [List.dropWhile_cons, hpp]
  simp only [matchGetterAt, e1, e2, e3, e4, e5, List.isEmpty_cons, Bool.false_eq_true, if_false]

/-- Reduction of the typed-getter matcher on a schematic getter line
`get <name>(<rest>`: the name is consumed and matching continues in the
concrete tail. -/
lemma matchTsGetterAt_front (name Xt : Str) (hn : name ≠ [])
    (hw : ∀ c ∈ name, isWordChar c = true) :
    matchTsGetterAt ('g' :: 'e' :: 't' :: ' ' :: (name ++ '(' :: Xt)) =
      (match Xt.dropWhile isSpaceChar with
       | ')' :: r4 =>
         match r4.dropWhile isSpaceChar with
         | ':' :: r5 =>
           let r6 := r5.dropWhile isSpaceChar
           let cap := r6.takeWhile isTypeChar
           if cap.isEmpty then none else some cap
         | _ => none
       | _ => none) := by
  obtain ⟨a, as, rfl⟩ : ∃ a as, name = a :: as := by
    cases name with
    | nil => exact absurd rfl hn
    | cons a as => exact ⟨a, as, rfl⟩
  have hwa : isWordChar a = true := hw a (by simp)
  have hsa : isSpaceChar a = false := word_not_space hwa
  have hsp : isSpaceChar ' ' = true := by decide
  have hwp : isWordChar '(' = false := by decide
  have hpp : isSpaceChar '(' = false := by decide
  have e1 : (' ' :: ((a :: as) ++ '(' :: Xt)).takeWhile isSpaceChar = [' '] := by
    simp [List.takeWhile_cons, hsa, hsp]
  have e2 : (' ' :: ((a :: as) ++ '(' :: Xt)).dropWhile isSpaceChar = (a :: as) ++ '(' :: Xt := by
    simp [List.dropWhile_cons, hsa, hsp]
  have e3 : ((a :: as) ++ '(' :: Xt).takeWhile isWordChar = a :: as := by
    rw [takeWhile_append_of_all _ hw]
    simp [List.takeWhile_cons, hwp]
  have e4 : ((a :: as) ++ '(' :: Xt).dropWhile isWordChar = '(' :: Xt := by
    rw [dropWhile_append_of_all _ hw]
    simp [List.dropWhile_cons, hwp]
  have e5 : ('(' :: Xt).dropWhile isSpaceChar = '(' :: Xt := by
    simp [List.dropWhile_cons, hpp]
  simp only [matchTsGetterAt, e1, e2, e3, e4, e5, List.isEmpty_cons, Bool.false_eq_true,
    if_false]

/-- A boolean matcher succeeding at position zero makes the boundary-guarded
search succeed. -/
lemma searchBoolAux_head {m : Str → Bool} {c : Char} {rest : Str}
    (h : m (c :: rest) = true) : searchBoolAux m none (c :: rest) = true := by
  simp [searchBoolAux, boundaryOkBefore, h]

/-- An option matcher succeeding at position zero determines the
boundary-guarded search. -/
lemma searchOptBAux_head {α : Type} {m : Str → Option α} {c : Char} {rest : Str} {v : α}
    (h : m (c :: rest) = some v) : searchOptBAux m none (c :: rest) = some v := by
  simp [searchOptBAux, boundaryOkBefore, h]

/-- An option matcher succeeding at position zero determines the plain
search. -/
lemma searchOptAux_head {α : Type} {m : Str → Option α} {c : Char} {rest : Str} {v : α}
    (h : m (c :: rest) = some v) : searchOptAux m (c :: rest) = some v := by
  simp [searchOptAux, h]

/-- C4: for every getter-declaration line `get <name>(): T {` built from a
nonempty word-character getter name, the getter rule (shared by both
engines) produces no `getter-type` Issue when `T` is exactly `DetoxElement`,
none when `T` is `Promise<DetoxElement>`, and always exactly one when `T` is
`SomeRandomType`. -/
theorem C4_theorem (fname : Str) (lines : List Str) (index : Nat) (name : Str)
    (hn : name ≠ []) (hw : ∀ c ∈ name, isWordChar c = true) :
    getterIssues fname lines index (str "get " ++ name ++ str "(): DetoxElement \x7b") = [] ∧
    getterIssues fname lines index
      (str "get " ++ name ++ str "(): Promise<DetoxElement> \x7b") = [] ∧
    getterIssues fname lines index (str "get " ++ name ++ str "(): SomeRandomType \x7b") =
      [mkIssue fname (getOriginalLineNumber lines index)
        (str "get " ++ name ++ str "(): SomeRandomType \x7b") CheckType.getterType] := by
  have hrepr1 : str "get " ++ name ++ str "(): DetoxElement \x7b" =
      'g' :: 'e' :: 't' :: ' ' :: (name ++ '(' :: str "): DetoxElement \x7b") := rfl
  have hrepr2 : str "get " ++ name ++ str "(): Promise<DetoxElement> \x7b" =
      'g' :: 'e' :: 't' :: ' ' :: (name ++ '(' :: str "): Promise<DetoxElement> \x7b") := rfl
  have hrepr3 : str "get " ++ name ++ str "(): SomeRandomType \x7b" =
      'g' :: 'e' :: 't' :: ' ' :: (name ++ '(' :: str "): SomeRandomType \x7b") := rfl
  refine ⟨?_, ?_, ?_⟩
  · have hg : searchGetterMethod (str "get " ++ name ++ str "(): DetoxElement \x7b") = true := by
      rw [hrepr1]
      exact searchBoolAux_head (matchGetterAt_front name _ hn hw)
    have hm : matchTsGetterAt
        ('g' :: 'e' :: 't' :: ' ' :: (name ++ '(' :: str "): DetoxElement \x7b")) =
        some (str "DetoxElement") := by
      rw [matchTsGetterAt_front name _ hn hw]
      decide
    have hs : searchTsGetter (str "get " ++ name ++ str "(): DetoxElement \x7b") =
        some (str "DetoxElement") := by
      rw [hrepr1]
      exact searchOptBAux_head hm
    have hv : isValidGetterType (str "DetoxElement") = true := by decide
    rw [List.append_assoc] at hg hs
    unfold getterIssues
    simp [hg, hs, hv]
  · have hg : searchGetterMethod
        (str "get " ++ name ++ str "(): Promise<DetoxElement> \x7b") = true := by
      rw [hrepr2]
      exact searchBoolAux_head (matchGetterAt_front name _ hn hw)
    have hm : matchTsGetterAt
        ('g' :: 'e' :: 't' :: ' ' :: (name ++ '(' :: str "): Promise<DetoxElement> \x7b")) =
        some (str "Promise<DetoxElement>") := by
      rw [matchTsGetterAt_front name _ hn hw]
      decide
    have hs : searchTsGetter (str "get " ++ name ++ str "(): Promise<DetoxElement> \x7b") =
        some (str "Promise<DetoxElement>") := by
      rw [hrepr2]
      exact searchOptBAux_head hm
    have hv : isValidGetterType (str "Promise<DetoxElement>") = true := by decide
    rw [List.append_assoc] at hg hs
    unfold getterIssues
    simp [hg, hs, hv]
  · have hg : searchGetterMethod
        (str "get " ++ name ++ str "(): SomeRandomType \x7b") = true := by
      rw [hrepr3]
      exact searchBoolAux_head (matchGetterAt_front name _ hn hw)
    have hm : matchTsGetterAt
        ('g' :: 'e' :: 't' :: ' ' :: (name ++ '(' :: str "): SomeRandomType \x7b")) =
        some (str "SomeRandomType") := by
      rw [matchTsGetterAt_front name _ hn hw]
      decide
    have hs : searchTsGetter (str "get " ++ name ++ str "(): SomeRandomType \x7b") =
        some (str "SomeRandomType") := by
      rw [hrepr3]
      exact searchOptBAux_head hm
    have hv : isValidGetterType (str "SomeRandomType") = false := by decide
    have hdot : '.' ∉ str "get " ++ name ++ str "(): SomeRandomType \x7b" := by
      intro hmem
      rcases List.mem_append.mp hmem with h1 | h2
      · rcases List.mem_append.mp h1 with h3 | h4
        · exact absurd h3 (by decide)
        · exact absurd (hw '.' h4) (by decide)
      · exact absurd h2 (by decide)
    have hbr : '[' ∉ str "get " ++ name ++ str "(): SomeRandomType \x7b" := by
      intro hmem
      rcases List.mem_append.mp hmem with h1 | h2
      · rcases List.mem_append.mp h1 with h3 | h4
        · exact absurd h3 (by decide)
        · exact absurd (hw '[' h4) (by decide)
      · exact absurd h2 (by decide)
    have hvt : hasValidType (str "get " ++ name ++ str "(): SomeRandomType \x7b") = false :=
      hasValidType_false hdot hbr
    rw [List.append_assoc] at hg hs hvt
    unfold getterIssues
    simp [hg, hs, hv, hvt, condIssue]

/-- C4 witness at the concrete getter name `button`. -/
theorem C4_witness :
    getterIssues (str "e2e/pages/P.ts") [str "+x"] 0
      (str "get " ++ str "button" ++ str "(): DetoxElement \x7b") = [] ∧
    getterIssues (str "e2e/pages/P.ts") [str "+x"] 0
      (str "get " ++ str "button" ++ str "(): Promise<DetoxElement> \x7b") = [] ∧
    getterIssues (str "e2e/pages/P.ts") [str "+x"] 0
      (str "get " ++ str "button" ++ str "(): SomeRandomType \x7b") =
      [mkIssue (str "e2e/pages/P.ts") (getOriginalLineNumber [str "+x"] 0)
        (str "get " ++ str "button" ++ str "(): SomeRandomType \x7b") CheckType.getterType] :=
  C4_theorem (str "e2e/pages/P.ts") [str "+x"] 0 (str "button") (by decide) (by decide)

lemma consumeLit_sound : ∀ {pat s r : Str}, consumeLit pat s = some r → s = pat ++ r := by
  intro pat
  induction pat with
  | nil =>
    intro s r h
    simpa [consumeLit] using h
  | cons p ps ih =>
    intro s r h
    cases s with
    | nil => exact absurd h (by simp [consumeLit])
    | cons c cs =>
      unfold consumeLit at h
      split at h
      · rename_i hcp
        have hcs := ih h
        rw [hcp, hcs]
        rfl
      · exact Option.noConfusion h

lemma consumeLit_append : ∀ (pat s : Str), consumeLit pat (pat ++ s) = some s := by
  intro pat
  induction pat with
  | nil => intro s; rfl
  | cons p ps ih =>
    intro s
    simp only [List.cons_append]
    unfold consumeLit
    simp [ih]

/-- The leftmost-search driver succeeds exactly when the matcher succeeds at
some position (for matchers rejecting the empty string). -/
lemma searchOptAux_isSome_iff {α : Type} (m : Str → Option α) (hm : m [] = none) :
    ∀ s : Str, (searchOptAux m s).isSome = true ↔ ∃ n, (m (s.drop n)).isSome = true := by
  intro s
  induction s with
  | nil =>
    constructor
    · intro h
      simp [searchOptAux] at h
    · rintro ⟨n, hn⟩
      rw [List.drop_nil] at hn
      rw [hm] at hn
      simp at hn
  | cons c rest ih =>
    unfold searchOptAux
    cases hmc : m (c :: rest) with
    | some a =>
      constructor
      · intro _
        exact ⟨0, by simp [hmc]⟩
      · intro _
        simp
    | none =>
      rw [ih]
      constructor
      · rintro ⟨n, hn⟩
        exact ⟨n + 1, by simpa using hn⟩
      · rintro ⟨n, hn⟩
        cases n with
        | zero =>
          rw [List.drop_zero] at hn
          rw [hmc] at hn
          simp at hn
        | succ k =>
          exact ⟨k, by simpa using hn⟩

lemma takeWhile_all {p : Char → Bool} {l : Str} (h : ∀ c ∈ l, p c = true) :
    l.takeWhile p = l := by
  have := @takeWhile_append_of_all p l [] h
  simpa using this

/-- Soundness of the PR-URL matcher: a successful match at a position
exhibits the PR-URL shape (followed by arbitrary residue) at that position,
with well-formed components. -/
lemma matchPrUrlAt_sound {cs o rp d : Str} (h : matchPrUrlAt cs = some (o, rp, d)) :
    specPrUrlParts o rp d ∧ ∃ post, cs = prUrlCore o rp d ++ post := by
  unfold matchPrUrlAt at h
  cases h0 : consumeLit (str "https://github.com/") cs with
  | none =>
    rw [h0] at h
    exact Option.noConfusion h
  | some r0 =>
    rw [h0] at h
    dsimp only at h
    split at h
    · exact Option.noConfusion h
    · rename_i hoE
      cases h1 : consumeLit (str "/") (r0.dropWhile (fun c => !(c = '/'))) with
      | none =>
        rw [h1] at h
        exact Option.noConfusion h
      | some r2 =>
        rw [h1] at h
        dsimp only at h
        split at h
        · exact Option.noConfusion h
        · rename_i hrE
          cases h3 : consumeLit (str "/pull/") (r2.dropWhile (fun c => !(c = '/'))) with
          | none =>
            rw [h3] at h
            exact Option.noConfusion h
          | some r4 =>
            rw [h3] at h
            dsimp only at h
            split at h
            · exact Option.noConfusion h
            · rename_i hdE
              have hinj : r0.takeWhile (fun c => !(c = '/')) = o ∧
                  r2.takeWhile (fun c => !(c = '/')) = rp ∧
                  r4.takeWhile Char.isDigit = d := by
                simpa using h
              obtain ⟨ho, hr, hd⟩ := hinj
              have hcs : cs = str "https://github.com/" ++ r0 := consumeLit_sound h0
              have hr0 : r0 = o ++ '/' :: r2 := by
                rw [← ho]
                rw [show ('/' : Char) :: r2 = str "/" ++ r2 from rfl, ← consumeLit_sound h1]
                exact (List.takeWhile_append_dropWhile _ _).symm
              have hr2 : r2 = rp ++ (str "/pull/" ++ r4) := by
                rw [← consumeLit_sound h3, ← hr]
                exact (List.takeWhile_append_dropWhile _ _).symm
              have hr4 : r4 = d ++ r4.dropWhile Char.isDigit := by
                rw [← hd]
                exact (List.takeWhile_append_dropWhile _ _).symm
              constructor
              · refine ⟨?_, ?_, ?_, ?_, ?_, ?_⟩
                · rw [← ho]
                  intro he
                  exact hoE (List.isEmpty_iff.mpr he)
                · intro c hc
                  rw [← ho] at hc
                  have := List.mem_takeWhile_imp hc
                  simpa using this
                · rw [← hr]
                  intro he
                  exact hrE (List.isEmpty_iff.mpr he)
                · intro c hc
                  rw [← hr] at hc
                  have := List.mem_takeWhile_imp hc
                  simpa using this
                · rw [← hd]
                  intro he
                  exact hdE (List.isEmpty_iff.mpr he)
                · intro c hc
                  rw [← hd] at hc
                  exact List.mem_takeWhile_imp hc
              · refine ⟨r4.dropWhile Char.isDigit, ?_⟩
                rw [hcs, hr0, hr2]
                rw [show str "/pull/" ++ r4 = str "/pull/" ++ (d ++ r4.dropWhile Char.isDigit) by
                  rw [← hr4]]
                simp [prUrlCore, List.append_assoc]

/-- Exact-shape extraction: on a string that is precisely the PR-URL shape,
the matcher returns its components. -/
lemma matchPrUrlAt_exact {o rp d : Str} (hp : specPrUrlParts o rp d) :
    matchPrUrlAt (prUrlCore o rp d) = some (o, rp, d) := by
  obtain ⟨ho, ho2, hr, hr2, hd, hd2⟩ := hp
  have hop : ∀ c ∈ o, (!decide (c = '/')) = true := by
    intro c hc
    simp [ho2 c hc]
  have hrp : ∀ c ∈ rp, (!decide (c = '/')) = true := by
    intro c hc
    simp [hr2 c hc]
  unfold prUrlCore matchPrUrlAt
  rw [consumeLit_append]
  dsimp only
  rw [takeWhile_append_of_all _ hop, dropWhile_append_of_all _ hop]
  rw [show List.takeWhile (fun c => !decide (c = '/')) ('/' :: (rp ++ (str "/pull/" ++ d))) = []
      from rfl]
  rw [List.append_nil]
  rw [show List.dropWhile (fun c => !decide (c = '/')) ('/' :: (rp ++ (str "/pull/" ++ d))) =
      '/' :: (rp ++ (str "/pull/" ++ d)) from rfl]
  rw [if_neg (by simp [List.isEmpty_iff, ho])]
  rw [show consumeLit (str "/") ('/' :: (rp ++ (str "/pull/" ++ d))) =
      some (rp ++ (str "/pull/" ++ d)) from rfl]
  dsimp only
  rw [takeWhile_append_of_all _ hrp, dropWhile_append_of_all _ hrp]
  rw [show List.takeWhile (fun c => !decide (c = '/')) (str "/pull/" ++ d) = [] from rfl]
  rw [List.append_nil]
  rw [show List.dropWhile (fun c => !decide (c = '/')) (str "/pull/" ++ d) = str "/pull/" ++ d
      from rfl]
  rw [if_neg (by simp [List.isEmpty_iff, hr])]
  rw [consumeLit_append]
  dsimp only
  rw [takeWhile_all hd2]
  rw [if_neg (by simp [List.isEmpty_iff, hd])]

/-- Completeness: the matcher succeeds on the PR-URL shape followed by any
residue. -/
lemma matchPrUrlAt_complete {o rp d : Str} (hp : specPrUrlParts o rp d) (post : Str) :
    (matchPrUrlAt (prUrlCore o rp d ++ post)).isSome = true := by
  obtain ⟨ho, ho2, hr, hr2, hd, hd2⟩ := hp
  have hop : ∀ c ∈ o, (!decide (c = '/')) = true := by
    intro c hc
    simp [ho2 c hc]
  have hrp : ∀ c ∈ rp, (!decide (c = '/')) = true := by
    intro c hc
    simp [hr2 c hc]
  obtain ⟨e, es, rfl⟩ : ∃ e es, d = e :: es := by
    cases d with
    | nil => exact absurd rfl hd
    | cons e es => exact ⟨e, es, rfl⟩
  have hde : Char.isDigit e = true := hd2 e (by simp)
  unfold prUrlCore matchPrUrlAt
  rw [List.append_assoc]
  rw [consumeLit_append]
  dsimp only
  rw [List.append_assoc]
  rw [takeWhile_append_of_all _ hop, dropWhile_append_of_all _ hop]
  rw [show ('/' :: (rp ++ (str "/pull/" ++ e :: es))) ++ post =
      '/' :: (rp ++ (str "/pull/" ++ (e :: es ++ post))) by simp]
  rw [show List.takeWhile (fun c => !decide (c = '/'))
        ('/' :: (rp ++ (str "/pull/" ++ (e :: es ++ post)))) = [] from rfl]
  rw [List.append_nil]
  rw [show List.dropWhile (fun c => !decide (c = '/'))
        ('/' :: (rp ++ (str "/pull/" ++ (e :: es ++ post)))) =
      '/' :: (rp ++ (str "/pull/" ++ (e :: es ++ post))) from rfl]
  rw [if_neg (by simp [List.isEmpty_iff, ho])]
  rw [show consumeLit (str "/") ('/' :: (rp ++ (str "/pull/" ++ (e :: es ++ post)))) =
      some (rp ++ (str "/pull/" ++ (e :: es ++ post))) from rfl]
  dsimp only
  rw [takeWhile_append_of_all _ hrp, dropWhile_append_of_all _ hrp]
  rw [show List.takeWhile (fun c => !decide (c = '/')) (str "/pull/" ++ (e :: es ++ post)) = []
      from rfl]
  rw [List.append_nil]
  rw [show List.dropWhile (fun c => !decide (c = '/')) (str "/pull/" ++ (e :: es ++ post)) =
      str "/pull/" ++ (e :: es ++ post) from rfl]
  rw [if_neg (by simp [List.isEmpty_iff, hr])]
  rw [consumeLit_append]
  dsimp only
  rw [show List.takeWhile Char.isDigit (e :: es ++ post) =
      e :: List.takeWhile Char.isDigit (es ++ post) by simp [List.takeWhile_cons, hde]]
  rw [if_neg (by simp)]
  simp

/-- C9 (amended): `parseGitHubPrUrl` fails exactly when no substring of the
input matches the PR-URL shape `https://github.com/<owner>/<repo>/pull/<number>`
(the regex search is unanchored); on a string that is exactly the shape it
returns the owner, repo and parsed pull number; and when parsing fails,
`validatePr` reports the error for every fetch oracle, so no fetch is
consulted. -/
theorem C9_theorem :
    (∀ s : Str, (parseGitHubPrUrl s).isSome = true ↔ specPrUrlSubstring s) ∧
    (∀ o r d : Str, specPrUrlParts o r d →
      parseGitHubPrUrl (prUrlCore o r d) =
        some { owner := o, repo := r, pullNumber := natOfDigits d }) ∧
    (∀ (fetch : PrInfo → FetchData) (s : Str), parseGitHubPrUrl s = none →
      validatePr fetch s = Except.error (str "Failed to validate PR: Invalid GitHub PR URL")) := by
  have hmnil : matchPrUrlAt [] = none := rfl
  refine ⟨?_, ?_, ?_⟩
  · intro s
    constructor
    · intro h
      unfold parseGitHubPrUrl at h
      cases hs : searchOptAux matchPrUrlAt s with
      | none =>
        rw [hs] at h
        simp at h
      | some v =>
        have hsome : (searchOptAux matchPrUrlAt s).isSome = true := by simp [hs]
        obtain ⟨n, hn⟩ := (searchOptAux_isSome_iff matchPrUrlAt hmnil s).mp hsome
        cases hm : matchPrUrlAt (s.drop n) with
        | none =>
          rw [hm] at hn
          simp at hn
        | some w =>
          obtain ⟨o2, r2, d2⟩ := w
          obtain ⟨hparts, post, hpost⟩ := matchPrUrlAt_sound hm
          refine ⟨s.take n, o2, r2, d2, post, hparts, ?_⟩
          rw [← hpost]
          exact (List.take_append_drop n s).symm
    · rintro ⟨pre, o, rp, d, post, hparts, heq⟩
      have hc : (matchPrUrlAt (s.drop pre.length)).isSome = true := by
        rw [heq, List.drop_left]
        exact matchPrUrlAt_complete hparts post
      have hsome := (searchOptAux_isSome_iff matchPrUrlAt hmnil s).mpr ⟨pre.length, hc⟩
      unfold parseGitHubPrUrl
      cases hs : searchOptAux matchPrUrlAt s with
      | none =>
        rw [hs] at hsome
        simp at hsome
      | some v =>
        obtain ⟨o2, r2, d2⟩ := v
        simp
  · intro o r d hp
    unfold parseGitHubPrUrl
    rw [show prUrlCore o r d =
        'h' :: (str "ttps://github.com/" ++ (o ++ ('/' :: (r ++ (str "/pull/" ++ d)))))
      from rfl]
    rw [searchOptAux_head (v := (o, r, d)) (by
      rw [show 'h' :: (str "ttps://github.com/" ++ (o ++ ('/' :: (r ++ (str "/pull/" ++ d))))) =
          prUrlCore o r d from rfl]
      exact matchPrUrlAt_exact hp)]
  · intro fetch s h
    unfold validatePr
    rw [h]

/-- C9 counterexample: a string that is not, as a whole, of the PR-URL shape
(it carries a junk prefix) on which the parser nevertheless succeeds,
because the regex search is unanchored. -/
theorem C9_counterexample :
    parseGitHubPrUrl (str "xhttps://github.com/a/b/pull/1") =
      some { owner := str "a", repo := str "b", pullNumber := 1 } ∧
    ¬specPrUrlShape (str "xhttps://github.com/a/b/pull/1") := by
  constructor
  · decide
  · rintro ⟨o, r, d, -, heq⟩
    rw [show str "xhttps://github.com/a/b/pull/1" =
        'x' :: str "https://github.com/a/b/pull/1" from rfl] at heq
    rw [show prUrlCore o r d =
        'h' :: (str "ttps://github.com/" ++ (o ++ ('/' :: (r ++ (str "/pull/" ++ d)))))
      from rfl] at heq
    simp at heq

/-- C9 witness: the amended theorem applied at a concrete exact-shape URL
and at a concrete non-matching string with a concrete fetch oracle. -/
theorem C9_witness :
    specPrUrlParts (str "a") (str "b") (str "7") ∧
    parseGitHubPrUrl (prUrlCore (str "a") (str "b") (str "7")) =
      some { owner := str "a", repo := str "b", pullNumber := natOfDigits (str "7") } ∧
    parseGitHubPrUrl (str "nope") = none ∧
    validatePr (fun _ => { meta := { title := [], url := [], author := [] }, files := [] })
        (str "nope") =
      Except.error (str "Failed to validate PR: Invalid GitHub PR URL") :=
  ⟨⟨by decide, by decide, by decide, by decide, by decide, by decide⟩,
   C9_theorem.2.1 (str "a") (str "b") (str "7")
     ⟨by decide, by decide, by decide, by decide, by decide, by decide⟩,
   by decide,
   C9_theorem.2.2 (fun _ => { meta := { title := [], url := [], author := [] }, files := [] })
     (str "nope") (by decide)⟩
